import Mathlib

/-!
# Verification of the message-feed service (Go sources)

Shallow embedding of the repository's core:

* `Api` — the HTTP handlers of `api/api.go` (`listMessages`, `createMessage`,
  `createReaction`), with request decoding / validation / transport outcomes
  passed in as explicit parameters.
* `Postgres` — the durable store of `postgres/postgres.go` and
  `postgres/models.go`, modelled as pure functions over a list of rows.
* `Redis` — the recency cache of `redis/redis.go` and `redis/models.go`,
  modelled as an explicit state: the `messages` sorted set, the per-message
  entity hashes, the per-message reaction sorted sets, and the per-reaction
  hashes.

Timestamps are embedded as `Int` nanoseconds (Go `time.Time` via `UnixNano`);
the Go zero `time.Time` is embedded as `0`.  Redis sorted-set scores are IEEE
754 doubles, so the Go conversion `float64(t.UnixNano())` is embedded by the
exact integer rounding function `fl64round` (round to nearest, ties to even,
at the precision of a 53-bit mantissa).
-/

/-! ## IEEE 754 double rounding of integers

`float64(n)` for a nonnegative integer `n` rounds `n` to the nearest multiple
of `2 ^ (⌊log₂ n⌋ - 52)` (ties to even), and is exact below `2 ^ 53`.  The
definition below computes that rounding exactly on `Nat` / `Int`; no floating
point type is involved.
-/

/-- Fuel-bounded binary logarithm: `log2aux s n = ⌊log₂ n⌋` whenever
`n < 2 ^ s` (proved below).  The fuel makes the function reduce inside the
kernel; 64 iterations cover every `int64` magnitude, and every timestamp the
program handles is an `int64` (`time.Time.UnixNano`). -/
def log2aux : Nat → Nat → Nat
  | 0, _ => 0
  | fuel + 1, n => if n < 2 then 0 else log2aux fuel (n / 2) + 1

/-- Exponent of the unit in the last place of `float64 n`: `0` below `2^53`. -/
def fl64exp (n : Nat) : Nat := log2aux 64 n - 52

/-- Round a natural number to the nearest `float64` value (ties to even),
returned as the exact natural number the double denotes. -/
def fl64roundNat (n : Nat) : Nat :=
  if 2 * (n % 2 ^ fl64exp n) < 2 ^ fl64exp n then
    n / 2 ^ fl64exp n * 2 ^ fl64exp n
  else if 2 ^ fl64exp n < 2 * (n % 2 ^ fl64exp n) then
    (n / 2 ^ fl64exp n + 1) * 2 ^ fl64exp n
  else if n / 2 ^ fl64exp n % 2 = 0 then
    n / 2 ^ fl64exp n * 2 ^ fl64exp n
  else
    (n / 2 ^ fl64exp n + 1) * 2 ^ fl64exp n

/-- Round an integer to the nearest `float64` value (exact integer result). -/
def fl64round (t : Int) : Int :=
  if t < 0 then -(fl64roundNat (-t).toNat : Int) else (fl64roundNat t.toNat : Int)

/-! ## `api/types.go` — the API data model

Go `time.Time` fields are embedded as `Int` (UnixNano); the Go zero time is
`0`.  The Go `Type` field of a reaction is named `rtype` here (`Type` is not a
valid Lean identifier). -/

namespace Api

/-- `api.Reaction` from `api/types.go`. -/
structure Reaction where
  id : String
  messageId : String
  rtype : String
  score : Int
  userId : String
  createdAt : Int
deriving Repr, DecidableEq

/-- `api.Message` from `api/types.go`. -/
structure Message where
  id : String
  text : String
  userId : String
  createdAt : Int
  reactions : List Reaction
  reactionCount : Int
deriving Repr, DecidableEq

end Api

/-! ## `redis/redis.go` and `redis/models.go` — the recency cache

The cache state holds the four kinds of Redis keys the code writes:

* `msgZ` — the sorted set at key `"messages"` (the recency index), kept as a
  list sorted ascending by `(score, member)`, exactly the order Redis stores a
  zset in (score order, ties broken by the lexicographic order of members);
* `msgH` — the hash at each key `"messages:<id>"` (the message entity table);
* `reactZ` — the sorted set at each key `"messages:<id>:reactions"` (the
  per-message reaction recency index);
* `reactH` — the hash at each key `"messages:<id>:reactions:<rid>"` (the
  per-reaction entity table).
-/

namespace Redis

/-- One entry of a Redis sorted set: a member string and its score.  Scores in
Redis are IEEE 754 doubles; here they are the exact integers those doubles
denote (every score the code writes is `fl64round` of an `Int`). -/
structure ZEntry where
  member : String
  score : Int
deriving Repr, DecidableEq

/-- Lexicographic order on code points, i.e. `memcmp` order for the ASCII
keys the code builds — the order Redis uses to break score ties. -/
def charListLtb : List Char → List Char → Bool
  | [], [] => false
  | [], _ :: _ => true
  | _ :: _, [] => false
  | a :: as, b :: bs =>
    if a.toNat < b.toNat then true
    else if b.toNat < a.toNat then false
    else charListLtb as bs

def strLtb (a b : String) : Bool := charListLtb a.data b.data

/-- Redis zset ordering: by score, ties broken by byte order of the member. -/
def zless (a b : ZEntry) : Bool :=
  a.score < b.score || (a.score == b.score && strLtb a.member b.member)

/-- Insert an entry into a zset list sorted ascending by `(score, member)`. -/
def zinsert (x : ZEntry) : List ZEntry → List ZEntry
  | [] => [x]
  | y :: ys => if zless x y then x :: y :: ys else y :: zinsert x ys

/-- `ZADD`: upsert the member, keeping the zset sorted. -/
def zadd (l : List ZEntry) (x : ZEntry) : List ZEntry :=
  zinsert x (l.filter (fun e => e.member != x.member))

/-- `HSET` of a whole record at a key (the key-to-hash binding in the
keyspace); later bindings shadow earlier ones via `List.lookup`. -/
def hset {α : Type} (l : List (String × α)) (k : String) (v : α) : List (String × α) :=
  (k, v) :: l.filter (fun p => p.1 != k)

/-- The hash stored at `messages:<id>` — the fields written by
`Redis.InsertMessage` (`redis/models.go` struct `message`). -/
structure MsgHash where
  id : String
  text : String
  userId : String
  createdAt : Int
deriving Repr, DecidableEq

/-- The hash stored at `messages:<id>:reactions:<rid>` — the fields of
`redis/models.go` struct `reaction`. -/
structure ReactHash where
  id : String
  messageId : String
  userId : String
  rtype : String
  score : Int
  createdAt : Int
deriving Repr, DecidableEq

/-- `HGETALL` of a missing key yields an empty map, which `Scan` leaves as the
zero-valued Go struct. -/
def zeroMsgHash : MsgHash := { id := "", text := "", userId := "", createdAt := 0 }

def zeroReactHash : ReactHash :=
  { id := "", messageId := "", userId := "", rtype := "", score := 0, createdAt := 0 }

/-- The whole cache keyspace as the code uses it. -/
structure RedisState where
  msgZ : List ZEntry
  msgH : List (String × MsgHash)
  reactZ : List (String × List ZEntry)
  reactH : List (String × ReactHash)
deriving Repr, DecidableEq

/-- The empty keyspace. -/
def RedisState.empty : RedisState := { msgZ := [], msgH := [], reactZ := [], reactH := [] }

/-- `maxSize` from `redis/redis.go`. -/
def maxSize : Nat := 10

/-- `fmt.Sprintf("%s:%s", messagePrefix, id)` with `messagePrefix = "messages"`. -/
def msgKey (id : String) : String := "messages:" ++ id

/-- `fmt.Sprintf("%s:%s:reactions", messagePrefix, msgId)`. -/
def reactIndexKey (msgId : String) : String := "messages:" ++ msgId ++ ":reactions"

/-- `fmt.Sprintf("%s:%s", keyRoot, reactionId)` where `keyRoot` is the
reaction index key. -/
def reactKey (msgId rid : String) : String := reactIndexKey msgId ++ ":" ++ rid

/-- `redis/models.go`: `message.APIMessage()` applied to a hash whose
`Reactions` field was filled by `ListMessages` from `ListReactions`. -/
def apiReactionOfHash (r : ReactHash) : Api.Reaction :=
  -- the Go struct literal sets ID, MessageID, UserID, Type and Score;
  -- CreatedAt is absent, so it stays at the zero time value
  { id := r.id, messageId := r.messageId, userId := r.userId, rtype := r.rtype,
    score := r.score, createdAt := 0 }

def apiMessageOfHash (m : MsgHash) (rs : List ReactHash) : Api.Message :=
  { id := m.id, text := m.text, userId := m.userId, createdAt := m.createdAt,
    reactions := rs.map apiReactionOfHash, reactionCount := rs.length }

/-- The hash `Redis.InsertMessage` writes (struct `message` literal). -/
def msgHashOf (m : Api.Message) : MsgHash :=
  { id := m.id, text := m.text, userId := m.userId, createdAt := m.createdAt }

/-- The score `Redis.InsertMessage` stores:
`float64(msg.CreatedAt.UnixNano())`. -/
def messageScore (m : Api.Message) : Int := fl64round m.createdAt

/-- The committed `WATCH`/`MULTI`/`EXEC` transaction of `Redis.InsertMessage`:
`HSET messages:<id> <hash>` and `ZADD messages <score> messages:<id>`, applied
together. -/
def insertMessageTx (s : RedisState) (m : Api.Message) : RedisState :=
  { s with
    msgH := hset s.msgH (msgKey m.id) (msgHashOf m),
    msgZ := zadd s.msgZ ⟨msgKey m.id, messageScore m⟩ }

/-- One removal round of `Redis.evictOldest` for a victim key:
`ZREM messages <key>`, `DEL <key>`, `DEL <key>:reactions`.
The per-reaction hashes `<key>:reactions:<rid>` are not touched. -/
def evictStep (st : RedisState) (e : ZEntry) : RedisState :=
  { st with
    msgZ := st.msgZ.filter (fun z => z.member != e.member),
    msgH := st.msgH.filter (fun p => p.1 != e.member),
    reactZ := st.reactZ.filter (fun p => p.1 != e.member ++ ":reactions") }

/-- `Redis.evictOldest`: `ZRANGE messages 0 -(maxSize+1)` selects the oldest
`card - maxSize` members (empty when the cardinality is at most `maxSize`),
then each victim is removed. -/
def evictOldest (s : RedisState) : RedisState :=
  (s.msgZ.take (s.msgZ.length - maxSize)).foldl evictStep s

/-- `Redis.InsertMessage`.  `txOk` is whether the watched transaction commits
(a transport failure or watch conflict aborts it with no write applied);
`evictOk` is whether the `ZRANGE` read inside `evictOldest` succeeds (its
failure is returned as an error, after the transaction has already
committed).  Returns the resulting keyspace and whether the call returned
`nil`. -/
def insertMessage (txOk evictOk : Bool) (s : RedisState) (m : Api.Message) :
    RedisState × Bool :=
  if txOk then
    let s1 := insertMessageTx s m
    if evictOk then (evictOldest s1, true) else (s1, false)
  else (s, false)

/-- The successful path of `Redis.InsertMessage`. -/
def insertOk (s : RedisState) (m : Api.Message) : RedisState :=
  (insertMessage true true s m).1

/-- The hash `Redis.InsertReaction` writes: the struct `reaction` literal sets
ID, MessageID, UserID, Type and Score; CreatedAt is absent, so it stays at
the zero time value. -/
def reactHashOf (r : Api.Reaction) : ReactHash :=
  { id := r.id, messageId := r.messageId, userId := r.userId, rtype := r.rtype,
    score := r.score, createdAt := 0 }

/-- `Redis.InsertReaction`: one committed transaction writing
`HSET messages:<msgId>:reactions:<rid> <hash>` and
`ZADD messages:<msgId>:reactions float64(CreatedAt.UnixNano()) <key>`. -/
def insertReaction (txOk : Bool) (s : RedisState) (msgId : String) (r : Api.Reaction) :
    RedisState × Bool :=
  if txOk then
    let root := reactIndexKey msgId
    let key := reactKey msgId r.id
    ({ s with
       reactH := hset s.reactH key (reactHashOf r),
       reactZ := hset s.reactZ root
         (zadd ((s.reactZ.lookup root).getD []) ⟨key, fl64round r.createdAt⟩) }, true)
  else (s, false)

/-- The successful path of `Redis.InsertReaction`. -/
def insertReactionOk (s : RedisState) (msgId : String) (r : Api.Reaction) : RedisState :=
  (insertReaction true s msgId r).1

/-- `Redis.ListReactions`: `ZRANGEBYSCORE messages:<msgId>:reactions -inf <now>`
(ascending), each member resolved by `HGETALL`.  `nowNano` is
`time.Now().UnixNano()` at call time; Redis parses the bound into a double. -/
def listReactions (nowNano : Int) (s : RedisState) (msgId : String) : List ReactHash :=
  let z := (s.reactZ.lookup (reactIndexKey msgId)).getD []
  ((z.filter (fun e => e.score ≤ fl64round nowNano)).map (·.member)).map
    (fun k => (s.reactH.lookup k).getD zeroReactHash)

/-- `Redis.ListMessages`: `ZREVRANGEBYSCORE messages +<now> -inf` (descending),
each member resolved by `HGETALL` and its reactions by `ListReactions` on the
ID read from the hash. -/
def listMessages (nowNano : Int) (s : RedisState) : List Api.Message :=
  ((s.msgZ.filter (fun e => e.score ≤ fl64round nowNano)).reverse).map
    (fun e =>
      let mh := (s.msgH.lookup e.member).getD zeroMsgHash
      apiMessageOfHash mh (listReactions nowNano s mh.id))

end Redis

/-! ## `postgres/postgres.go` and `postgres/models.go` — the durable store

`ListMessages` is a pure function of the table contents; `InsertReaction`
follows bun's rendering of the `reaction` model: a field whose tag carries
`nullzero` and holds the Go zero value is rendered as `DEFAULT` (and read
back via `RETURNING`), while a field without `nullzero` is rendered as its
literal Go value even when zero.  The `reaction.Score` tag is
`bun:",notnull,default:1"` — no `nullzero` — so a zero score is inserted as
the literal `0`; the column-level `DEFAULT 1` of the schema never applies. -/

namespace Postgres

/-- Row of the `reactions` table (`postgres/models.go` struct `reaction`). -/
structure PgReaction where
  id : String
  messageId : String
  userId : String
  rtype : String
  score : Int
  createdAt : Int
deriving Repr, DecidableEq

/-- Row of the `messages` table with its loaded `Reactions` relation. -/
structure PgMessage where
  id : String
  messageText : String
  userId : String
  createdAt : Int
  reactions : List PgReaction
deriving Repr, DecidableEq

/-- `postgres/models.go`: `reaction.APIReaction()`. -/
def PgReaction.toApi (r : PgReaction) : Api.Reaction :=
  { id := r.id, messageId := r.messageId, userId := r.userId, rtype := r.rtype,
    score := r.score, createdAt := r.createdAt }

/-- `postgres/models.go`: `message.APIMessage()`. -/
def PgMessage.toApi (m : PgMessage) : Api.Message :=
  { id := m.id, text := m.messageText, userId := m.userId, createdAt := m.createdAt,
    reactions := m.reactions.map PgReaction.toApi,
    reactionCount := m.reactions.length }

/-- `ORDER BY created_at DESC` (ties resolved stably here; the claims proved
below do not depend on the tie order). -/
def sortByCreatedAtDesc (rows : List PgMessage) : List PgMessage :=
  rows.insertionSort (fun a b => b.createdAt ≤ a.createdAt)

/-- `Postgres.ListMessages`: optional `WHERE id NOT IN (...)` (only added when
the exclusion list is non-empty), `ORDER BY created_at DESC`, then
`Limit`/`Offset`.  bun appends `LIMIT`/`OFFSET` clauses only for positive
values, so non-positive values leave the result unclipped. -/
def listMessages (rows : List PgMessage) (limit offset : Int)
    (excludeMsgIDs : List String) : List Api.Message :=
  let filtered :=
    if excludeMsgIDs.isEmpty then rows
    else rows.filter (fun r => !(excludeMsgIDs.contains r.id))
  let sorted := sortByCreatedAtDesc filtered
  let afterOffset := if 0 < offset then sorted.drop offset.toNat else sorted
  let limited := if 0 < limit then afterOffset.take limit.toNat else afterOffset
  limited.map PgMessage.toApi

/-- The row `Postgres.InsertReaction` stores.  `genId` is the server-generated
UUID (`id` is a zero-valued pk with a SQL default, so bun lets the database
assign it and reads it back), `dbNow` is the database's `now()` for the
`created_at` column (zero-valued, tagged `nullzero`, so the SQL default
applies and is read back).  `score` is rendered literally — its tag has no
`nullzero`. -/
def insertReactionRow (genId : String) (dbNow : Int) (r : Api.Reaction) : PgReaction :=
  { id := genId, messageId := r.messageId, userId := r.userId, rtype := r.rtype,
    score := r.score, createdAt := dbNow }

/-- `Postgres.InsertReaction`: the stored row converted back by
`reaction.APIReaction()`. -/
def insertReaction (genId : String) (dbNow : Int) (r : Api.Reaction) : Api.Reaction :=
  (insertReactionRow genId dbNow r).toApi

end Postgres

/-! ## `api/api.go` — the HTTP handlers

Transport-level outcomes (request decoding, validation, and each
collaborator's success or failure) are explicit parameters; the handlers are
otherwise a direct transcription of the Go control flow. -/

namespace Api

/-- `pageSize` from `api/api.go`. -/
def pageSize : Int := 10

/-- What `listMessages` produced: the HTTP status, the body's message list
(empty unless the status is 200), and the single `DB.ListMessages` call made,
if any, as `(limit, offset, excludeMsgIDs)`. -/
structure ListOutcome where
  status : Nat
  messages : List Api.Message
  dbCall : Option (Int × Int × List String)
deriving Repr, DecidableEq

/-- `API.listMessages`.  `page` is the result of `strconv.Atoi` on the `page`
query parameter (the parameter defaults to the string `"1"` when absent);
`cacheRes` is what `Cache.ListMessages` returned; `dbRows`/`dbOk` give the
durable store's table and whether its query succeeds. -/
def listMessagesHandler (page : Except Unit Int)
    (cacheRes : Except Unit (List Api.Message))
    (dbRows : List Postgres.PgMessage) (dbOk : Bool) : ListOutcome :=
  match page with
  | .error _ => { status := 400, messages := [], dbCall := none }
  | .ok p =>
    match cacheRes with
    | .error _ => { status := 500, messages := [], dbCall := none }
    | .ok msgs =>
      let msgIDs := msgs.map (·.id)
      if dbOk then
        { status := 200,
          messages := msgs ++ Postgres.listMessages dbRows pageSize (pageSize * (p - 1)) msgIDs,
          dbCall := some (pageSize, pageSize * (p - 1), msgIDs) }
      else
        { status := 500, messages := [], dbCall := some (pageSize, pageSize * (p - 1), msgIDs) }

/-- What a creation handler produced: status, the body on success, and
whether a cache-mirror failure was logged. -/
structure CreateOutcome (α : Type) where
  status : Nat
  body : Option α
  loggedCacheFailure : Bool
deriving Repr, DecidableEq

/-- `API.createMessage`.  `decodeOk`/`validOk` are the body decode and
validation outcomes, `dbRes` what `DB.InsertMessage` returned, `cacheRes`
what `Cache.InsertMessage` returned.  A cache failure after a successful
durable insert is only logged; the response is still `201` with the durable
record. -/
def createMessageHandler (decodeOk validOk : Bool)
    (dbRes : Except Unit Api.Message) (cacheRes : Except Unit Unit) :
    CreateOutcome Api.Message :=
  if !decodeOk then { status := 400, body := none, loggedCacheFailure := false }
  else if !validOk then { status := 400, body := none, loggedCacheFailure := false }
  else
    match dbRes with
    | .error _ => { status := 500, body := none, loggedCacheFailure := false }
    | .ok msg =>
      match cacheRes with
      | .error _ => { status := 201, body := some msg, loggedCacheFailure := true }
      | .ok _ => { status := 201, body := some msg, loggedCacheFailure := false }

/-- The `api.Reaction` literal `API.createReaction` sends to
`DB.InsertReaction`: ID and CreatedAt zero-valued except that `CreatedAt` is
`time.Now()`. -/
def reactionRequestOf (messageID rtype userId : String) (score reqNow : Int) : Api.Reaction :=
  { id := "", messageId := messageID, rtype := rtype, score := score,
    userId := userId, createdAt := reqNow }

/-- `API.createReaction`.  `paramOk` is the `required,uuid` validation of the
path parameter; `decodeOk`/`validOk` as above; `dbRes` what
`DB.InsertReaction` returned; `cacheRes` what `Cache.InsertReaction`
returned.  Unlike message creation, a cache failure here is responded to as
a 500 error even though the durable insert succeeded. -/
def createReactionHandler (paramOk decodeOk validOk : Bool)
    (dbRes : Except Unit Api.Reaction) (cacheRes : Except Unit Unit) :
    CreateOutcome Api.Reaction :=
  if !paramOk then { status := 400, body := none, loggedCacheFailure := false }
  else if !decodeOk then { status := 400, body := none, loggedCacheFailure := false }
  else if !validOk then { status := 400, body := none, loggedCacheFailure := false }
  else
    match dbRes with
    | .error _ => { status := 500, body := none, loggedCacheFailure := false }
    | .ok rc =>
      match cacheRes with
      | .error _ => { status := 500, body := none, loggedCacheFailure := true }
      | .ok _ => { status := 201, body := some rc, loggedCacheFailure := false }

end Api

/-! ## Cache invariant and concrete scenario inputs -/

namespace Redis

/-- Every recency-index entry resolves through the entity table (the
"no dangling index entry" invariant of the cache). -/
def IndexResolves (s : RedisState) : Prop :=
  ∀ e ∈ s.msgZ, (s.msgH.lookup e.member).isSome

end Redis

/-- A message with the given id and creation time and no loaded reactions,
used for concrete runs. -/
def sampleMsg (i : String) (t : Int) : Api.Message :=
  { id := i, text := "hello", userId := "u1", createdAt := t,
    reactions := [], reactionCount := 0 }

/-- Eleven store-assigned messages with distinct ids and strictly increasing
creation times. -/
def sampleMsgs11 : List Api.Message :=
  [sampleMsg "m01" 1, sampleMsg "m02" 2, sampleMsg "m03" 3, sampleMsg "m04" 4,
   sampleMsg "m05" 5, sampleMsg "m06" 6, sampleMsg "m07" 7, sampleMsg "m08" 8,
   sampleMsg "m09" 9, sampleMsg "m10" 10, sampleMsg "m11" 11]

/-- A reaction on the first sample message. -/
def c3Reaction : Api.Reaction :=
  { id := "r1", messageId := "m01", rtype := "like", score := 1,
    userId := "u2", createdAt := 5 }

/-- Cache state after: inserting the first ten sample messages, mirroring a
reaction on `m01`, then inserting the eleventh message (which evicts `m01`). -/
def c3State : Redis.RedisState :=
  (sampleMsgs11.drop 10).foldl Redis.insertOk
    (Redis.insertReactionOk
      ((sampleMsgs11.take 10).foldl Redis.insertOk Redis.RedisState.empty)
      "m01" c3Reaction)

/-- Eleven messages with distinct ids and strictly increasing nanosecond
timestamps whose last two land in the same millisecond and round to the same
double.  The newer message has the lexicographically smaller key. -/
def c1Msgs : List Api.Message :=
  [sampleMsg "c1" 1, sampleMsg "c2" 2, sampleMsg "c3" 3, sampleMsg "c4" 4,
   sampleMsg "c5" 5, sampleMsg "c6" 6, sampleMsg "c7" 7, sampleMsg "c8" 8,
   sampleMsg "c9" 9, sampleMsg "b" 1760000000000000000,
   sampleMsg "a" 1760000000000000001]

/-- Cache state after inserting `c1Msgs` in order. -/
def c1State : Redis.RedisState := c1Msgs.foldl Redis.insertOk Redis.RedisState.empty

/-! ## Properties of the double rounding -/

theorem log2aux_eq_log {s n : Nat} (h : n < 2 ^ s) : log2aux s n = Nat.log 2 n := by
  induction s generalizing n with
  | zero =>
    interval_cases n
    simp [log2aux]
  | succ s ih =>
    rcases Nat.lt_or_ge n 2 with hn | hn
    · interval_cases n <;> simp [log2aux]
    · have hdiv : n / 2 < 2 ^ s := by
        rw [Nat.div_lt_iff_lt_mul (by norm_num)]
        calc n < 2 ^ (s + 1) := h
        _ = 2 ^ s * 2 := by ring
      have hrec : Nat.log 2 n = Nat.log 2 (n / 2) + 1 := by
        have h1 : Nat.log 2 (n / 2) = Nat.log 2 n - 1 := Nat.log_div_base 2 n
        have h2 : 0 < Nat.log 2 n := Nat.log_pos one_lt_two hn
        omega
      simp only [log2aux]
      rw [if_neg (by omega), ih hdiv, hrec]

theorem fl64exp_eq_log {n : Nat} (h : n < 2 ^ 64) : fl64exp n = Nat.log 2 n - 52 := by
  unfold fl64exp
  rw [log2aux_eq_log h]

theorem fl64exp_eq_zero {n : Nat} (h : n < 2 ^ 53) : fl64exp n = 0 := by
  rw [fl64exp_eq_log (lt_trans h (by norm_num))]
  rcases Nat.eq_zero_or_pos n with rfl | hn
  · simp [Nat.log]
  · have : Nat.log 2 n < 53 := Nat.log_lt_of_lt_pow hn.ne' h
    omega

/-- `float64` is exact on naturals below `2^53`. -/
theorem fl64roundNat_eq_self {n : Nat} (h : n < 2 ^ 53) : fl64roundNat n = n := by
  unfold fl64roundNat
  rw [fl64exp_eq_zero h]
  simp [Nat.mod_one]

/-- `float64` is exact on nonnegative integers below `2^53`. -/
theorem fl64round_eq_self {t : Int} (h0 : 0 ≤ t) (h : t < 2 ^ 53) : fl64round t = t := by
  unfold fl64round
  rw [if_neg (by omega)]
  have ht : t.toNat < 2 ^ 53 := by omega
  rw [fl64roundNat_eq_self ht]
  omega

theorem fl64exp_mono {a b : Nat} (h : a ≤ b) (hb : b < 2 ^ 64) :
    fl64exp a ≤ fl64exp b := by
  rw [fl64exp_eq_log (lt_of_le_of_lt h hb), fl64exp_eq_log hb]
  exact Nat.sub_le_sub_right (Nat.log_mono_right h) 52

theorem fl64exp_pos {n : Nat} (h : 2 ^ 53 ≤ n) (h64 : n < 2 ^ 64) : 1 ≤ fl64exp n := by
  have hn : n ≠ 0 := by positivity
  have : 53 ≤ Nat.log 2 n := (Nat.pow_le_iff_le_log one_lt_two hn).mp h
  rw [fl64exp_eq_log h64]
  omega

/-- The mantissa of a double is below `2^53`. -/
theorem fl64_mantissa_ub {n : Nat} (h64 : n < 2 ^ 64) : n / 2 ^ fl64exp n < 2 ^ 53 := by
  by_cases h : n < 2 ^ 53
  · rw [fl64exp_eq_zero h]
    simpa using h
  · push_neg at h
    have hn : n ≠ 0 := by positivity
    have hlog : 53 ≤ Nat.log 2 n := (Nat.pow_le_iff_le_log one_lt_two hn).mp h
    have hub : n < 2 ^ (Nat.log 2 n + 1) := Nat.lt_pow_succ_log_self one_lt_two n
    have he : fl64exp n = Nat.log 2 n - 52 := fl64exp_eq_log h64
    rw [Nat.div_lt_iff_lt_mul (Nat.pos_pow_of_pos _ (by norm_num))]
    calc n < 2 ^ (Nat.log 2 n + 1) := hub
    _ = 2 ^ 53 * 2 ^ fl64exp n := by rw [he, ← pow_add]; congr 1; omega

/-- Above `2^53` the mantissa of a double is at least `2^52`. -/
theorem fl64_mantissa_lb {n : Nat} (h : 2 ^ 53 ≤ n) (h64 : n < 2 ^ 64) :
    2 ^ 52 ≤ n / 2 ^ fl64exp n := by
  have hn : n ≠ 0 := by positivity
  have hlog : 53 ≤ Nat.log 2 n := (Nat.pow_le_iff_le_log one_lt_two hn).mp h
  have hlb : 2 ^ Nat.log 2 n ≤ n := Nat.pow_log_le_self 2 hn
  have he : fl64exp n = Nat.log 2 n - 52 := fl64exp_eq_log h64
  rw [Nat.le_div_iff_mul_le (Nat.pos_pow_of_pos _ (by norm_num)), ← pow_add]
  calc 2 ^ (52 + fl64exp n) = 2 ^ Nat.log 2 n := by rw [he]; congr 1; omega
  _ ≤ n := hlb

theorem fl64roundNat_ge (n : Nat) : n / 2 ^ fl64exp n * 2 ^ fl64exp n ≤ fl64roundNat n := by
  unfold fl64roundNat
  split_ifs <;> (try simp only [Nat.add_mul, Nat.one_mul]) <;> omega

theorem fl64roundNat_le (n : Nat) : fl64roundNat n ≤ (n / 2 ^ fl64exp n + 1) * 2 ^ fl64exp n := by
  unfold fl64roundNat
  split_ifs <;> (try simp only [Nat.add_mul, Nat.one_mul]) <;> omega

/-- Rounding to the nearest double is monotone on `Nat` (int64 magnitudes). -/
theorem fl64roundNat_mono {a b : Nat} (h : a ≤ b) (hb64 : b < 2 ^ 64) :
    fl64roundNat a ≤ fl64roundNat b := by
  have ha64 : a < 2 ^ 64 := lt_of_le_of_lt h hb64
  by_cases hb : b < 2 ^ 53
  · have ha : a < 2 ^ 53 := lt_of_le_of_lt h hb
    rw [fl64roundNat_eq_self ha, fl64roundNat_eq_self hb]
    exact h
  push_neg at hb
  have hqb : 2 ^ 52 ≤ b / 2 ^ fl64exp b := fl64_mantissa_lb hb hb64
  have hgb : b / 2 ^ fl64exp b * 2 ^ fl64exp b ≤ fl64roundNat b := fl64roundNat_ge b
  by_cases ha : a < 2 ^ 53
  · -- `a` is exact and below `2^53`; `fl64roundNat b` is at least `2^(52 + exp b) ≥ 2^53`.
    rw [fl64roundNat_eq_self ha]
    have heb : 1 ≤ fl64exp b := fl64exp_pos hb hb64
    calc a ≤ 2 ^ 53 := le_of_lt ha
    _ = 2 ^ 52 * 2 ^ 1 := by norm_num
    _ ≤ b / 2 ^ fl64exp b * 2 ^ fl64exp b :=
        Nat.mul_le_mul hqb (Nat.pow_le_pow_right (by norm_num) heb)
    _ ≤ fl64roundNat b := hgb
  push_neg at ha
  have hee : fl64exp a ≤ fl64exp b := fl64exp_mono h hb64
  rcases Nat.lt_or_ge (fl64exp a) (fl64exp b) with hlt | hge
  · -- different binades: everything in `a`'s binade sits below everything in `b`'s.
    have hqa : a / 2 ^ fl64exp a < 2 ^ 53 := fl64_mantissa_ub ha64
    calc fl64roundNat a ≤ (a / 2 ^ fl64exp a + 1) * 2 ^ fl64exp a := fl64roundNat_le a
    _ ≤ 2 ^ 53 * 2 ^ fl64exp a := Nat.mul_le_mul_right _ (by omega)
    _ = 2 ^ (53 + fl64exp a) := by rw [pow_add]
    _ ≤ 2 ^ (52 + fl64exp b) := Nat.pow_le_pow_right (by norm_num) (by omega)
    _ = 2 ^ 52 * 2 ^ fl64exp b := by rw [pow_add]
    _ ≤ b / 2 ^ fl64exp b * 2 ^ fl64exp b := Nat.mul_le_mul_right _ hqb
    _ ≤ fl64roundNat b := hgb
  · -- same binade: compare mantissas, then remainders.
    have he : fl64exp a = fl64exp b := le_antisymm hee hge
    set e := fl64exp a with hedef
    have hq : a / 2 ^ e ≤ b / 2 ^ e := Nat.div_le_div_right h
    rcases Nat.lt_or_ge (a / 2 ^ e) (b / 2 ^ e) with hqlt | hqge
    · calc fl64roundNat a ≤ (a / 2 ^ e + 1) * 2 ^ e := fl64roundNat_le a
      _ ≤ b / 2 ^ e * 2 ^ e := Nat.mul_le_mul_right _ (by omega)
      _ ≤ b / 2 ^ fl64exp b * 2 ^ fl64exp b := by rw [← he]
      _ ≤ fl64roundNat b := hgb
    · have hqeq : a / 2 ^ e = b / 2 ^ e := le_antisymm hq (by omega)
      have hra : a % 2 ^ e ≤ b % 2 ^ e := by
        have h1 := Nat.div_add_mod a (2 ^ e)
        have h2 := Nat.div_add_mod b (2 ^ e)
        rw [hqeq] at h1
        omega
      unfold fl64roundNat
      rw [← hedef, ← he, ← hqeq]
      split_ifs <;> (try simp only [Nat.add_mul, Nat.one_mul]) <;> omega

/-- Rounding to the nearest double is monotone on `Int` (int64 magnitudes). -/
theorem fl64round_mono {a b : Int} (h : a ≤ b) (ha64 : a.natAbs < 2 ^ 64)
    (hb64 : b.natAbs < 2 ^ 64) : fl64round a ≤ fl64round b := by
  unfold fl64round
  split_ifs with h1 h2 h2
  · have hle : (-b).toNat ≤ (-a).toNat := by omega
    have hballe : (-a).toNat < 2 ^ 64 := by omega
    have := fl64roundNat_mono hle hballe
    omega
  · have hx : (0 : Int) ≤ (fl64roundNat (-a).toNat : Int) := Int.ofNat_nonneg _
    have hy : (0 : Int) ≤ (fl64roundNat b.toNat : Int) := Int.ofNat_nonneg _
    omega
  · omega
  · have hle : a.toNat ≤ b.toNat := by omega
    have hballe : b.toNat < 2 ^ 64 := by omega
    have := fl64roundNat_mono hle hballe
    omega

/-! ## Keyspace helper lemmas -/

theorem lookup_filter_ne {α : Type} (l : List (String × α)) (k m : String) (h : m ≠ k) :
    (l.filter (fun p => p.1 != k)).lookup m = l.lookup m := by
  induction l with
  | nil => rfl
  | cons p l ih =>
    rcases eq_or_ne p.1 k with hp | hp
    · have hf : (p.1 != k) = false := by simp [hp]
      have hk : (m == k) = false := by simp [h]
      have hm : (m == p.1) = false := by simp [hp, h]
      simp [List.filter_cons, hf, List.lookup, hm, hk, ih]
    · have hf : (p.1 != k) = true := by simp [hp]
      simp only [List.filter_cons, hf, if_true]
      by_cases hmp : m = p.1
      · simp [List.lookup, hmp]
      · have hm : (m == p.1) = false := by simp [hmp]
        simp [List.lookup, hm, ih]

theorem lookup_hset_self {α : Type} (l : List (String × α)) (k : String) (v : α) :
    (Redis.hset l k v).lookup k = some v := by
  simp [Redis.hset, List.lookup]

theorem lookup_hset_ne {α : Type} (l : List (String × α)) (k m : String) (v : α)
    (h : m ≠ k) : (Redis.hset l k v).lookup m = l.lookup m := by
  have hm : (m == k) = false := by simp [h]
  simp [Redis.hset, List.lookup, hm, lookup_filter_ne l k m h]

theorem mem_zinsert {x y : Redis.ZEntry} {l : List Redis.ZEntry} :
    y ∈ Redis.zinsert x l ↔ y = x ∨ y ∈ l := by
  induction l with
  | nil => simp [Redis.zinsert]
  | cons z l ih =>
    by_cases hz : Redis.zless x z
    · simp only [Redis.zinsert, hz, if_true]
      simp
    · simp only [Redis.zinsert, hz, Bool.false_eq_true, if_false]
      simp only [List.mem_cons, ih]
      tauto

theorem mem_zinsert_self (x : Redis.ZEntry) (l : List Redis.ZEntry) :
    x ∈ Redis.zinsert x l := mem_zinsert.mpr (Or.inl rfl)

theorem zless_eq_false_of_lt {x y : Redis.ZEntry} (h : y.score < x.score) :
    Redis.zless x y = false := by
  have h1 : decide (x.score < y.score) = false := by
    simp only [decide_eq_false_iff_not]
    omega
  have h2 : (x.score == y.score) = false := by
    simp only [beq_eq_false_iff_ne, ne_eq]
    omega
  simp [Redis.zless, h1, h2]

theorem zinsert_eq_append {x : Redis.ZEntry} {l : List Redis.ZEntry}
    (h : ∀ y ∈ l, y.score < x.score) : Redis.zinsert x l = l ++ [x] := by
  induction l with
  | nil => rfl
  | cons z l ih =>
    have hz : Redis.zless x z = false := zless_eq_false_of_lt (h z (by simp))
    simp only [Redis.zinsert, hz, Bool.false_eq_true, if_false, List.cons_append,
      List.cons.injEq, true_and]
    exact ih (fun y hy => h y (by simp [hy]))

theorem zadd_eq_append {x : Redis.ZEntry} {l : List Redis.ZEntry}
    (hm : ∀ e ∈ l, e.member ≠ x.member) (hs : ∀ e ∈ l, e.score < x.score) :
    Redis.zadd l x = l ++ [x] := by
  unfold Redis.zadd
  rw [List.filter_eq_self.mpr (fun e he => by simpa using hm e he)]
  exact zinsert_eq_append hs

theorem mem_of_mem_zadd {x y : Redis.ZEntry} {l : List Redis.ZEntry}
    (h : y ∈ Redis.zadd l x) : y = x ∨ y ∈ l := by
  rcases mem_zinsert.mp h with h' | h'
  · exact Or.inl h'
  · exact Or.inr (List.mem_of_mem_filter h')

theorem msgKey_injective {a b : String} (h : Redis.msgKey a = Redis.msgKey b) : a = b := by
  have hd := congrArg String.data h
  simp only [Redis.msgKey, String.data_append] at hd
  have := List.append_cancel_left hd
  exact String.ext this

theorem insertMessageTx_msgH (s : Redis.RedisState) (m : Api.Message) :
    (Redis.insertMessageTx s m).msgH =
      Redis.hset s.msgH (Redis.msgKey m.id) (Redis.msgHashOf m) := rfl

theorem insertMessageTx_msgZ (s : Redis.RedisState) (m : Api.Message) :
    (Redis.insertMessageTx s m).msgZ =
      Redis.zadd s.msgZ ⟨Redis.msgKey m.id, Redis.messageScore m⟩ := rfl

/-! ## Claims -/

/-- Claim C4: the two creation paths handle a cache-mirror failure
asymmetrically.  When the durable insert succeeds but the cache insert
fails, `createMessage` still responds `201 Created` with the durable record
(only logging the failure), while `createReaction` responds with a 500
error instead of the created reaction. -/
theorem claim_C4_creation_paths_asymmetric :
    ∀ (msg : Api.Message) (rc : Api.Reaction),
      Api.createMessageHandler true true (.ok msg) (.error ()) =
        { status := 201, body := some msg, loggedCacheFailure := true } ∧
      Api.createReactionHandler true true true (.ok rc) (.error ()) =
        { status := 500, body := none, loggedCacheFailure := true } := by
  intro msg rc
  exact ⟨rfl, rfl⟩

/-- Claim C7: the listing handler does not partially degrade.  If the cache
read fails it responds with a single 500 error and never queries the store;
if the store read fails it responds with a single 500 error and returns no
page content (in particular not the cache segment). -/
theorem claim_C7_no_partial_degradation :
    ∀ (p : Int) (rows : List Postgres.PgMessage) (dbOk : Bool)
      (msgs : List Api.Message),
      Api.listMessagesHandler (.ok p) (.error ()) rows dbOk =
        { status := 500, messages := [], dbCall := none } ∧
      Api.listMessagesHandler (.ok p) (.ok msgs) rows false =
        { status := 500, messages := [],
          dbCall := some (Api.pageSize, Api.pageSize * (p - 1), msgs.map (·.id)) } := by
  intro p rows dbOk msgs
  exact ⟨rfl, rfl⟩

/-- Claim C9: a page parameter that parses to an integer below 1 is not
rejected: the handler proceeds and passes the zero-or-negative offset
`pageSize * (p - 1)` to the store's `ListMessages`; only a parse failure is
answered with a 400 error. -/
theorem claim_C9_nonpositive_page_accepted :
    ∀ (p : Int) (msgs : List Api.Message) (rows : List Postgres.PgMessage)
      (dbOk : Bool),
      p < 1 →
      ((Api.listMessagesHandler (.ok p) (.ok msgs) rows dbOk).status ≠ 400 ∧
        (Api.listMessagesHandler (.ok p) (.ok msgs) rows dbOk).dbCall =
          some (Api.pageSize, Api.pageSize * (p - 1), msgs.map (·.id)) ∧
        Api.pageSize * (p - 1) ≤ 0) ∧
      (∀ cacheRes rows' dbOk',
        Api.listMessagesHandler (.error ()) cacheRes rows' dbOk' =
          { status := 400, messages := [], dbCall := none }) := by
  intro p msgs rows dbOk hp
  refine ⟨⟨?_, ?_, ?_⟩, fun cacheRes rows' dbOk' => rfl⟩
  · cases dbOk <;> simp [Api.listMessagesHandler]
  · cases dbOk <;> simp [Api.listMessagesHandler]
  · have : p - 1 ≤ 0 := by omega
    simp only [Api.pageSize]
    omega

/-- Witness for claim C9 at `p = 0` on an empty cache and store. -/
theorem claim_C9_witness :
    (0 : Int) < 1 ∧
    ((Api.listMessagesHandler (.ok 0) (.ok []) [] true).status ≠ 400 ∧
      (Api.listMessagesHandler (.ok 0) (.ok []) [] true).dbCall =
        some (Api.pageSize, Api.pageSize * (0 - 1), ([] : List Api.Message).map (·.id)) ∧
      Api.pageSize * ((0 : Int) - 1) ≤ 0) ∧
    (∀ cacheRes rows' dbOk',
      Api.listMessagesHandler (.error ()) cacheRes rows' dbOk' =
        { status := 400, messages := [], dbCall := none }) :=
  ⟨by norm_num, (claim_C9_nonpositive_page_accepted 0 [] [] true (by norm_num)).1,
    (claim_C9_nonpositive_page_accepted 0 [] [] true (by norm_num)).2⟩

/-- Claim C8 names the intended behavior (reaction score defaults to 1 when
the request omits it); the code diverges.  The handler passes the decoded
zero through, and `Postgres.InsertReaction` renders the zero literally —
the `Score` column tag lacks `nullzero`, so the schema's `DEFAULT 1` never
applies.  At the failing input (a reaction request without a score), the
stored row and the returned body carry score 0, not 1. -/
theorem claim_C8_score_zero_not_one :
    (Postgres.insertReactionRow "7f6c9f0a-0000-0000-0000-000000000001"
        1760000000000000000
        (Api.reactionRequestOf "84bd9af7-79e6-4027-b284-9d5d875efd5b" "thumbsup"
          "test" 0 1759999999000000000)).score = 0 ∧
    (Postgres.insertReactionRow "7f6c9f0a-0000-0000-0000-000000000001"
        1760000000000000000
        (Api.reactionRequestOf "84bd9af7-79e6-4027-b284-9d5d875efd5b" "thumbsup"
          "test" 0 1759999999000000000)).score ≠ 1 ∧
    ((Api.createReactionHandler true true true
        (.ok (Postgres.insertReaction "7f6c9f0a-0000-0000-0000-000000000001"
          1760000000000000000
          (Api.reactionRequestOf "84bd9af7-79e6-4027-b284-9d5d875efd5b" "thumbsup"
            "test" 0 1759999999000000000)))
        (.ok ())).body.map (·.score)) = some 0 := by
  refine ⟨rfl, by decide, rfl⟩

/-- Claim C3 names the intended behavior (eviction removes the evicted
message's recency-index slot, entity row, reaction sub-index and every
per-reaction hash); the code diverges.  In the concrete run `c3State`
(ten inserts, a mirrored reaction on `m01`, then an eleventh insert that
evicts `m01`), the message hash and the reaction sub-index of `m01` are
gone, but the per-reaction hash `messages:m01:reactions:r1` is still
present: `evictOldest` deletes only `<key>` and `<key>:reactions`. -/
theorem claim_C3_eviction_leaks_reaction_hash :
    c3State.msgZ.filter (fun e => e.member == Redis.msgKey "m01") = [] ∧
    c3State.msgH.lookup (Redis.msgKey "m01") = none ∧
    c3State.reactZ.lookup (Redis.reactIndexKey "m01") = none ∧
    c3State.reactH.lookup (Redis.reactKey "m01" "r1") =
      some (Redis.reactHashOf c3Reaction) := by
  refine ⟨by decide, by decide, by decide, by decide⟩

/-- Claim C6 as stated is false: the recency-index score is
`float64(CreatedAt.UnixNano())`, and a double has a 53-bit mantissa, so at
current Unix-nanosecond magnitudes (about `2^60`) two instants in the same
millisecond — here 1 ns apart — round to the same score. -/
theorem claim_C6_counterexample :
    Redis.messageScore (sampleMsg "x" 1760000000000000000) =
      Redis.messageScore (sampleMsg "y" 1760000000000000001) ∧
    (1760000000000000000 : Int) ≠ 1760000000000000001 ∧
    (1760000000000000000 : Int) / 1000000 = 1760000000000000001 / 1000000 := by
  refine ⟨by decide, by decide, by decide⟩

/-- Claim C6 (amended): the score recorded in the recency index for an
inserted message is the nearest-double rounding `fl64round` of its
nanosecond creation timestamp — exact (hence collision-free) only below
`2^53` nanoseconds; nanosecond instants whose roundings coincide share a
score. -/
theorem claim_C6_amended_score_is_rounded_nanos :
    ∀ (s : Redis.RedisState) (m : Api.Message),
      (⟨Redis.msgKey m.id, Redis.messageScore m⟩ : Redis.ZEntry) ∈
        (Redis.insertMessageTx s m).msgZ ∧
      Redis.messageScore m = fl64round m.createdAt ∧
      (∀ t : Int, 0 ≤ t → t < 2 ^ 53 → fl64round t = t) := by
  intro s m
  refine ⟨?_, rfl, fun t h0 h53 => fl64round_eq_self h0 h53⟩
  exact mem_zinsert_self _ _

/-- Witness for the amended claim C6 at a concrete state and timestamp. -/
theorem claim_C6_amended_witness :
    ((⟨Redis.msgKey "a", Redis.messageScore (sampleMsg "a" 5)⟩ : Redis.ZEntry) ∈
      (Redis.insertMessageTx Redis.RedisState.empty (sampleMsg "a" 5)).msgZ) ∧
    fl64round 7 = 7 :=
  ⟨(claim_C6_amended_score_is_rounded_nanos Redis.RedisState.empty (sampleMsg "a" 5)).1,
    (claim_C6_amended_score_is_rounded_nanos Redis.RedisState.empty
      (sampleMsg "a" 5)).2.2 7 (by norm_num) (by norm_num)⟩

/-- Claim C10: a reaction mirrored into the cache and read back comes out
with the zero creation time, whatever timestamp it was created with: the
cached reaction hash is written without its CreatedAt field, and
`reaction.APIReaction` in `redis/models.go` does not copy CreatedAt
either — every reaction produced by the cache read path has the zero time.
The original timestamp survives only as the reaction sub-index score. -/
theorem claim_C10_cached_reactions_lose_created_at :
    ∀ (nowNano : Int) (s : Redis.RedisState),
      (∀ msg ∈ Redis.listMessages nowNano s, ∀ rc ∈ msg.reactions, rc.createdAt = 0) ∧
      (∀ (msgId : String) (r : Api.Reaction),
        (⟨Redis.reactKey msgId r.id, fl64round r.createdAt⟩ : Redis.ZEntry) ∈
          (((Redis.insertReactionOk s msgId r).reactZ.lookup
            (Redis.reactIndexKey msgId)).getD []) ∧
        (Redis.insertReactionOk s msgId r).reactH.lookup (Redis.reactKey msgId r.id) =
          some (Redis.reactHashOf r) ∧
        (Redis.reactHashOf r).createdAt = 0) := by
  intro nowNano s
  constructor
  · intro msg hmsg rc hrc
    rcases List.mem_map.mp hmsg with ⟨e, _, rfl⟩
    rcases List.mem_map.mp hrc with ⟨rh, _, rfl⟩
    rfl
  · intro msgId r
    refine ⟨?_, ?_, rfl⟩
    · have hz := lookup_hset_self (α := List Redis.ZEntry)
        ((Redis.insertReaction true s msgId r).1.reactZ.filter
          (fun p => p.1 != Redis.reactIndexKey msgId))
        (Redis.reactIndexKey msgId) []
      show _ ∈ (((Redis.insertReaction true s msgId r).1.reactZ.lookup
        (Redis.reactIndexKey msgId)).getD [])
      simp only [Redis.insertReaction, if_true]
      rw [lookup_hset_self]
      simp only [Option.getD_some]
      exact mem_zinsert_self _ _
    · show (Redis.insertReaction true s msgId r).1.reactH.lookup
        (Redis.reactKey msgId r.id) = some (Redis.reactHashOf r)
      simp only [Redis.insertReaction, if_true]
      exact lookup_hset_self _ _ _

/-- Witness for claim C10 at a concrete state, message and reaction. -/
theorem claim_C10_witness :
    (∀ msg ∈ Redis.listMessages 50 c3State, ∀ rc ∈ msg.reactions, rc.createdAt = 0) ∧
    (⟨Redis.reactKey "m02" "r9", fl64round 42⟩ : Redis.ZEntry) ∈
      (((Redis.insertReactionOk c3State "m02"
          { id := "r9", messageId := "m02", rtype := "wave", score := 2,
            userId := "u3", createdAt := 42 }).reactZ.lookup
        (Redis.reactIndexKey "m02")).getD []) :=
  ⟨(claim_C10_cached_reactions_lose_created_at 50 c3State).1,
    ((claim_C10_cached_reactions_lose_created_at 50 c3State).2 "m02"
      { id := "r9", messageId := "m02", rtype := "wave", score := 2,
        userId := "u3", createdAt := 42 }).1⟩

/-- Claim C5: the two writes of `Redis.InsertMessage` (entity hash and
recency-index entry) are one Redis transaction: if it does not commit the
state is unchanged and an error is returned, and in every outcome — commit,
abort, or an eviction-read failure after the commit — a recency-index entry
whose key lacks an entity-table row is never introduced. -/
theorem claim_C5_insert_atomicity :
    ∀ (txOk evictOk : Bool) (s : Redis.RedisState) (m : Api.Message),
      (Redis.IndexResolves s →
        Redis.IndexResolves (Redis.insertMessage txOk evictOk s m).1) ∧
      (txOk = false → Redis.insertMessage txOk evictOk s m = (s, false)) := by
  intro txOk evictOk s m
  constructor
  · intro hs
    cases txOk with
    | false => exact hs
    | true =>
      have h1 : Redis.IndexResolves (Redis.insertMessageTx s m) := by
        intro e he
        rw [insertMessageTx_msgZ] at he
        rw [insertMessageTx_msgH]
        rcases mem_of_mem_zadd he with rfl | hmem
        · rw [lookup_hset_self]
          rfl
        · rcases eq_or_ne e.member (Redis.msgKey m.id) with hk | hk
          · rw [hk, lookup_hset_self]
            rfl
          · rw [lookup_hset_ne _ _ _ _ hk]
            exact hs e hmem
      cases evictOk with
      | false => exact h1
      | true =>
        show Redis.IndexResolves (Redis.evictOldest (Redis.insertMessageTx s m))
        generalize Redis.insertMessageTx s m = s1 at h1
        unfold Redis.evictOldest
        generalize (s1.msgZ.take (s1.msgZ.length - Redis.maxSize)) = victims
        induction victims generalizing s1 with
        | nil => exact h1
        | cons v vs ih =>
          apply ih
          intro e he
          have hm : e ∈ s1.msgZ := List.mem_of_mem_filter he
          have hne : e.member ≠ v.member := by
            have := List.of_mem_filter he
            simpa using this
          show ((s1.msgH.filter (fun p => p.1 != v.member)).lookup e.member).isSome
          rw [lookup_filter_ne _ _ _ hne]
          exact h1 e hm
  · intro h
    subst h
    rfl

/-- Witness for claim C5 on the empty keyspace. -/
theorem claim_C5_witness :
    Redis.IndexResolves
      (Redis.insertMessage true true Redis.RedisState.empty (sampleMsg "w" 3)).1 ∧
    Redis.insertMessage false true Redis.RedisState.empty (sampleMsg "w" 3) =
      (Redis.RedisState.empty, false) :=
  ⟨(claim_C5_insert_atomicity true true Redis.RedisState.empty (sampleMsg "w" 3)).1
      (by intro e he; cases he),
    (claim_C5_insert_atomicity false true Redis.RedisState.empty (sampleMsg "w" 3)).2 rfl⟩

/-- Claim C1 as stated is false: in the run `c1State` — eleven inserts with
distinct store-assigned identifiers and strictly increasing nanosecond
creation timestamps, listed afterwards — `RecencyCache.List` does return ten
messages and they are the ten most recent, but not newest-first: the last
two timestamps round to the same double score, so the tie is broken by the
byte order of the member keys and the older message `b` is listed before
the newer message `a`. -/
theorem claim_C1_counterexample :
    ((c1Msgs.map (·.createdAt)).Pairwise (· < ·) ∧
      (c1Msgs.map (·.id)).Nodup ∧
      Redis.maxSize < c1Msgs.length ∧
      (∀ m ∈ c1Msgs, 0 ≤ m.createdAt ∧ m.createdAt ≤ 2000000000000000000)) ∧
    (Redis.listMessages 2000000000000000000 c1State).map (·.id) =
      ["b", "a", "c9", "c8", "c7", "c6", "c5", "c4", "c3", "c2"] ∧
    (Redis.listMessages 2000000000000000000 c1State).map (·.id) ≠
      ((c1Msgs.drop (c1Msgs.length - Redis.maxSize)).map (·.id)).reverse := by
  refine ⟨⟨by decide, by decide, by decide, by decide⟩, by decide, by decide⟩

theorem toApi_id (m : Postgres.PgMessage) : m.toApi.id = m.id := rfl

theorem sort_perm (l : List Postgres.PgMessage) :
    List.Perm (Postgres.sortByCreatedAtDesc l) l := List.perm_insertionSort _ _

/-- The exclusion filter of `Postgres.ListMessages`, with the empty-list
short-circuit of the Go code folded away. -/
theorem pg_filtered_eq (rows : List Postgres.PgMessage) (ex : List String) :
    (if ex.isEmpty then rows
      else rows.filter (fun r => !(ex.contains r.id))) =
      rows.filter (fun r => !(ex.contains r.id)) := by
  cases ex with
  | nil => simp
  | cons a l => rfl

/-- `Postgres.ListMessages` at `limit = pageSize` and `offset = 0`:
exclusion filter first, then sort, then the first ten. -/
theorem pg_list_page1 (rows : List Postgres.PgMessage) (ex : List String) :
    Postgres.listMessages rows Api.pageSize 0 ex =
      ((Postgres.sortByCreatedAtDesc
        (rows.filter (fun r => !(ex.contains r.id)))).take 10).map
        Postgres.PgMessage.toApi := by
  unfold Postgres.listMessages
  rw [pg_filtered_eq]
  norm_num [Api.pageSize]
  simp [Int.toNat_ofNat]

/-- Claim C2: on a page-1 listing with a healthy cache and store, where the
cache returns `hot` (pairwise-distinct ids) and the store table `rows` has
pairwise-distinct ids, the handler responds 200 with exactly
`min (h + pageSize) (h + m)` messages, where `m` counts the store rows whose
id is not among the cached ids — the store applies the exclusion set before
limit/offset, so excluded hot entries consume no page slots — and no id
appears twice in the response. -/
theorem claim_C2_page1_listing_count_and_dedup :
    ∀ (hot : List Api.Message) (rows : List Postgres.PgMessage),
      (hot.map (·.id)).Nodup →
      (rows.map (·.id)).Nodup →
      (Api.listMessagesHandler (.ok 1) (.ok hot) rows true).status = 200 ∧
      (Api.listMessagesHandler (.ok 1) (.ok hot) rows true).messages.length =
        min (hot.length + Api.pageSize.toNat)
          (hot.length +
            (rows.filter
              (fun r => !((hot.map (·.id)).contains r.id))).length) ∧
      ((Api.listMessagesHandler (.ok 1) (.ok hot) rows true).messages.map
        (·.id)).Nodup := by
  intro hot rows hhot hrows
  have hoff : Api.pageSize * ((1 : Int) - 1) = 0 := by norm_num
  have hmsgs : (Api.listMessagesHandler (.ok 1) (.ok hot) rows true).messages =
      hot ++ Postgres.listMessages rows Api.pageSize 0 (hot.map (·.id)) := by
    show hot ++ Postgres.listMessages rows Api.pageSize (Api.pageSize * (1 - 1))
        (hot.map (·.id)) =
      hot ++ Postgres.listMessages rows Api.pageSize 0 (hot.map (·.id))
    rw [hoff]
  have hperm := sort_perm (rows.filter
    (fun r => !((hot.map (·.id)).contains r.id)))
  have hfilterids : ((rows.filter
      (fun r => !((hot.map (·.id)).contains r.id))).map (·.id)).Nodup :=
    (hrows.sublist (List.Sublist.map _ (List.filter_sublist _)))
  have hsortids : ((Postgres.sortByCreatedAtDesc (rows.filter
      (fun r => !((hot.map (·.id)).contains r.id)))).map (·.id)).Nodup :=
    ((hperm.map _).nodup_iff).mpr hfilterids
  have htakeids : (((Postgres.sortByCreatedAtDesc (rows.filter
      (fun r => !((hot.map (·.id)).contains r.id)))).take 10).map (·.id)).Nodup :=
    hsortids.sublist (List.Sublist.map _ (List.take_sublist _ _))
  refine ⟨rfl, ?_, ?_⟩
  · rw [hmsgs, pg_list_page1, List.length_append, List.length_map,
      List.length_take, hperm.length_eq]
    have hps : Api.pageSize.toNat = 10 := rfl
    rw [hps]
    omega
  · rw [hmsgs, pg_list_page1, List.map_append, List.nodup_append]
    have hcomp : ((fun m : Api.Message => m.id) ∘ Postgres.PgMessage.toApi) =
        fun r : Postgres.PgMessage => r.id := rfl
    refine ⟨hhot, ?_, ?_⟩
    · rw [List.map_map, hcomp]
      exact htakeids
    · intro a ha hb
      rw [List.map_map, hcomp] at hb
      rcases List.mem_map.mp hb with ⟨r, hr, rfl⟩
      have hrmem : r ∈ rows.filter
          (fun s => !((hot.map (·.id)).contains s.id)) :=
        hperm.mem_iff.mp (List.mem_of_mem_take hr)
      have hprop := List.of_mem_filter hrmem
      have hnotin : r.id ∉ hot.map (·.id) := by simpa using hprop
      exact hnotin ha

/-- Witness for claim C2: one cached message, two store rows, one of which
shares the cached id. -/
theorem claim_C2_witness :
    ((([sampleMsg "m01" 1]).map (·.id)).Nodup ∧
      (([{ id := "m01", messageText := "hello", userId := "u1", createdAt := 1,
            reactions := [] },
          { id := "m02", messageText := "bye", userId := "u1", createdAt := 2,
            reactions := [] }] : List Postgres.PgMessage).map (·.id)).Nodup) ∧
    (Api.listMessagesHandler (.ok 1) (.ok [sampleMsg "m01" 1])
        [{ id := "m01", messageText := "hello", userId := "u1", createdAt := 1,
            reactions := [] },
          { id := "m02", messageText := "bye", userId := "u1", createdAt := 2,
            reactions := [] }] true).messages.length =
      min (1 + Api.pageSize.toNat) (1 + 1) ∧
    ((Api.listMessagesHandler (.ok 1) (.ok [sampleMsg "m01" 1])
        [{ id := "m01", messageText := "hello", userId := "u1", createdAt := 1,
            reactions := [] },
          { id := "m02", messageText := "bye", userId := "u1", createdAt := 2,
            reactions := [] }] true).messages.map (·.id)).Nodup := by
  refine ⟨⟨by decide, by decide⟩, ?_, ?_⟩
  · have h := (claim_C2_page1_listing_count_and_dedup [sampleMsg "m01" 1]
      [{ id := "m01", messageText := "hello", userId := "u1", createdAt := 1,
          reactions := [] },
        { id := "m02", messageText := "bye", userId := "u1", createdAt := 2,
          reactions := [] }] (by decide) (by decide)).2.1
    rw [h]
    decide
  · exact (claim_C2_page1_listing_count_and_dedup [sampleMsg "m01" 1]
      [{ id := "m01", messageText := "hello", userId := "u1", createdAt := 1,
          reactions := [] },
        { id := "m02", messageText := "bye", userId := "u1", createdAt := 2,
          reactions := [] }] (by decide) (by decide)).2.2

/-! ## The cache run invariant behind the amended claim C1 -/

theorem insertMessageTx_reactZ (s : Redis.RedisState) (m : Api.Message) :
    (Redis.insertMessageTx s m).reactZ = s.reactZ := rfl

theorem insertOk_eq (s : Redis.RedisState) (m : Api.Message) :
    Redis.insertOk s m = Redis.evictOldest (Redis.insertMessageTx s m) := rfl

theorem evictStep_msgZ (st : Redis.RedisState) (e : Redis.ZEntry) :
    (Redis.evictStep st e).msgZ = st.msgZ.filter (fun z => z.member != e.member) := rfl

theorem evictStep_msgH (st : Redis.RedisState) (e : Redis.ZEntry) :
    (Redis.evictStep st e).msgH = st.msgH.filter (fun p => p.1 != e.member) := rfl

theorem evictStep_reactZ (st : Redis.RedisState) (e : Redis.ZEntry) :
    (Redis.evictStep st e).reactZ =
      st.reactZ.filter (fun p => p.1 != e.member ++ ":reactions") := rfl

/-- After inserting one more message `m` into a cache state holding exactly
the most recent `maxSize`-tail of `done` (with resolvable hashes and no
reaction keys), the state holds exactly the most recent tail of
`done ++ [m]`: the transaction appends the new highest-scored entry and the
eviction removes the oldest entry when the cardinality reached eleven. -/
theorem insertOk_step (done : List Api.Message) (m : Api.Message) (s : Redis.RedisState)
    (hid : ((done ++ [m]).map (·.id)).Nodup)
    (hsc : ∀ x ∈ done, Redis.messageScore x < Redis.messageScore m)
    (hz : s.msgZ = (done.drop (done.length - Redis.maxSize)).map
      (fun x => ⟨Redis.msgKey x.id, Redis.messageScore x⟩))
    (hh : ∀ x ∈ done.drop (done.length - Redis.maxSize),
      s.msgH.lookup (Redis.msgKey x.id) = some (Redis.msgHashOf x))
    (hr : s.reactZ = []) :
    ((Redis.insertOk s m).msgZ =
      ((done ++ [m]).drop ((done ++ [m]).length - Redis.maxSize)).map
        (fun x => ⟨Redis.msgKey x.id, Redis.messageScore x⟩)) ∧
    (∀ x ∈ (done ++ [m]).drop ((done ++ [m]).length - Redis.maxSize),
      (Redis.insertOk s m).msgH.lookup (Redis.msgKey x.id) =
        some (Redis.msgHashOf x)) ∧
    (Redis.insertOk s m).reactZ = [] := by
  have hms : Redis.maxSize = 10 := rfl
  have hmid : m.id ∉ done.map (·.id) := by
    have := hid
    rw [List.map_append, List.nodup_append] at this
    intro hmem
    exact this.2.2 hmem (by simp)
  have hidd : (done.map (·.id)).Nodup := by
    have := hid
    rw [List.map_append, List.nodup_append] at this
    exact this.1
  have hTsub : done.drop (done.length - Redis.maxSize) ⊆ done := List.drop_subset _ _
  have hfresh : ∀ e ∈ s.msgZ, e.member ≠ Redis.msgKey m.id := by
    rw [hz]
    intro e he
    rcases List.mem_map.mp he with ⟨x, hx, rfl⟩
    intro hcontr
    have hxid : x.id = m.id := msgKey_injective hcontr
    exact hmid (hxid ▸ List.mem_map_of_mem _ (hTsub hx))
  have hsmall : ∀ e ∈ s.msgZ, e.score < Redis.messageScore m := by
    rw [hz]
    intro e he
    rcases List.mem_map.mp he with ⟨x, hx, rfl⟩
    exact hsc x (hTsub hx)
  have hzadd : (Redis.insertMessageTx s m).msgZ =
      s.msgZ ++ [⟨Redis.msgKey m.id, Redis.messageScore m⟩] := by
    rw [insertMessageTx_msgZ]
    exact zadd_eq_append hfresh hsmall
  rcases Nat.lt_or_ge done.length Redis.maxSize with hlen | hlen
  · -- at most nine resident messages: the eviction read selects no victim
    have h0 : done.length - Redis.maxSize = 0 := by omega
    have h0' : (done ++ [m]).length - Redis.maxSize = 0 := by
      rw [List.length_append, hms] at *
      simp only [List.length_cons, List.length_nil]
      omega
    rw [h0, List.drop_zero] at hz hh
    have hlen1 : (Redis.insertMessageTx s m).msgZ.length = done.length + 1 := by
      rw [hzadd, List.length_append, hz, List.length_map]
      simp
    have hevict : Redis.evictOldest (Redis.insertMessageTx s m) =
        Redis.insertMessageTx s m := by
      unfold Redis.evictOldest
      have hsub : (Redis.insertMessageTx s m).msgZ.length - Redis.maxSize = 0 := by
        rw [hlen1, hms]
        omega
      rw [hsub, List.take_zero, List.foldl_nil]
    rw [insertOk_eq, hevict]
    refine ⟨?_, ?_, ?_⟩
    · rw [hzadd, hz, h0', List.drop_zero, List.map_append]
      rfl
    · rw [h0', List.drop_zero]
      intro x hx
      rw [insertMessageTx_msgH]
      rcases List.mem_append.mp hx with hx | hx
      · have hne : Redis.msgKey x.id ≠ Redis.msgKey m.id := by
          intro hc
          exact hmid ((msgKey_injective hc) ▸ List.mem_map_of_mem _ hx)
        rw [lookup_hset_ne _ _ _ _ hne]
        exact hh x hx
      · have hxm : x = m := by simpa using hx
        subst hxm
        exact lookup_hset_self _ _ _
    · rw [insertMessageTx_reactZ]
      exact hr
  · -- ten resident messages: the oldest one is evicted
    have h10 : (done.drop (done.length - Redis.maxSize)).length = 10 := by
      rw [List.length_drop, hms]
      omega
    obtain ⟨t0, T', hT⟩ : ∃ t0 T',
        done.drop (done.length - Redis.maxSize) = t0 :: T' := by
      cases hT : done.drop (done.length - Redis.maxSize) with
      | nil => rw [hT] at h10; simp at h10
      | cons a l => exact ⟨a, l, rfl⟩
    have hT'len : T'.length = 9 := by
      rw [hT] at h10
      simp at h10
      omega
    have hT' : T' = done.drop (done.length - Redis.maxSize + 1) := by
      have htl := List.tail_drop done (done.length - Redis.maxSize)
      rw [hT] at htl
      simpa using htl
    have hdropA : (done ++ [m]).drop ((done ++ [m]).length - Redis.maxSize) =
        T' ++ [m] := by
      have hk : (done ++ [m]).length - Redis.maxSize =
          done.length - Redis.maxSize + 1 := by
        rw [List.length_append, hms] at *
        simp only [List.length_cons, List.length_nil]
        omega
      rw [hk, List.drop_append_eq_append_drop, ← hT']
      have : done.length - Redis.maxSize + 1 - done.length = 0 := by
        rw [hms] at *
        omega
      rw [this, List.drop_zero]
    have ht0done : t0 ∈ done := hTsub (by rw [hT]; exact List.mem_cons_self _ _)
    have hT'sub : T' ⊆ done := fun x hx =>
      hTsub (by rw [hT]; exact List.mem_cons_of_mem _ hx)
    have hTidnodup : ((t0 :: T').map (·.id)).Nodup := by
      rw [← hT]
      exact hidd.sublist (List.Sublist.map _ (List.drop_sublist _ _))
    have ht0T' : t0.id ∉ T'.map (·.id) := by
      rw [List.map_cons, List.nodup_cons] at hTidnodup
      exact hTidnodup.1
    have ht0m : t0.id ≠ m.id := fun hc =>
      hmid (hc ▸ List.mem_map_of_mem _ ht0done)
    have hs1z : (Redis.insertMessageTx s m).msgZ =
        (⟨Redis.msgKey t0.id, Redis.messageScore t0⟩ : Redis.ZEntry) ::
          (T'.map (fun x => ⟨Redis.msgKey x.id, Redis.messageScore x⟩) ++
            [⟨Redis.msgKey m.id, Redis.messageScore m⟩]) := by
      rw [hzadd, hz, hT, List.map_cons]
      rfl
    have hvictims : (Redis.insertMessageTx s m).msgZ.take
        ((Redis.insertMessageTx s m).msgZ.length - Redis.maxSize) =
        [⟨Redis.msgKey t0.id, Redis.messageScore t0⟩] := by
      have hlen1 : (Redis.insertMessageTx s m).msgZ.length = 11 := by
        rw [hs1z]
        simp [hT'len]
      rw [hlen1, hms, hs1z]
      rfl
    have hevict : Redis.insertOk s m =
        Redis.evictStep (Redis.insertMessageTx s m)
          ⟨Redis.msgKey t0.id, Redis.messageScore t0⟩ := by
      rw [insertOk_eq]
      unfold Redis.evictOldest
      rw [hvictims, List.foldl_cons, List.foldl_nil]
    have hkeyne : ∀ x ∈ T' ++ [m], Redis.msgKey x.id ≠ Redis.msgKey t0.id := by
      intro x hx hc
      have hxid : x.id = t0.id := msgKey_injective hc
      rcases List.mem_append.mp hx with hx | hx
      · exact ht0T' (hxid ▸ List.mem_map_of_mem _ hx)
      · have : x = m := by simpa using hx
        subst this
        exact ht0m hxid.symm
    refine ⟨?_, ?_, ?_⟩
    · rw [hevict, evictStep_msgZ, hs1z, hdropA, List.filter_cons]
      have hhead : (((⟨Redis.msgKey t0.id, Redis.messageScore t0⟩ :
          Redis.ZEntry)).member != Redis.msgKey t0.id) = false := by
        simp
      rw [hhead]
      simp only [Bool.false_eq_true, if_false]
      have hrest : (T'.map (fun x =>
            (⟨Redis.msgKey x.id, Redis.messageScore x⟩ : Redis.ZEntry)) ++
          [(⟨Redis.msgKey m.id, Redis.messageScore m⟩ : Redis.ZEntry)]).filter
            (fun z => z.member != Redis.msgKey t0.id) =
          T'.map (fun x =>
            (⟨Redis.msgKey x.id, Redis.messageScore x⟩ : Redis.ZEntry)) ++
            [(⟨Redis.msgKey m.id, Redis.messageScore m⟩ : Redis.ZEntry)] := by
        apply List.filter_eq_self.mpr
        intro e he
        rcases List.mem_append.mp he with he | he
        · rcases List.mem_map.mp he with ⟨x, hx, rfl⟩
          simpa using hkeyne x (List.mem_append.mpr (Or.inl hx))
        · have : e = ⟨Redis.msgKey m.id, Redis.messageScore m⟩ := by simpa using he
          subst this
          simpa using hkeyne m (List.mem_append.mpr (Or.inr (by simp)))
      rw [hrest, List.map_append]
      rfl
    · intro x hx
      rw [hdropA] at hx
      rw [hevict, evictStep_msgH, insertMessageTx_msgH]
      rw [lookup_filter_ne _ _ _ (hkeyne x hx)]
      rcases List.mem_append.mp hx with hx' | hx'
      · have hne : Redis.msgKey x.id ≠ Redis.msgKey m.id := by
          intro hc
          exact hmid ((msgKey_injective hc) ▸
            List.mem_map_of_mem _ (hT'sub hx'))
        rw [lookup_hset_ne _ _ _ _ hne]
        exact hh x (by rw [hT]; exact List.mem_cons_of_mem _ hx')
      · have hxm : x = m := by simpa using hx'
        subst hxm
        exact lookup_hset_self _ _ _
    · rw [hevict, evictStep_reactZ, insertMessageTx_reactZ, hr]
      rfl

/-- Running a batch of inserts (distinct ids, strictly increasing scores)
from a state that holds exactly the recent tail of `done` leaves a state
holding exactly the recent tail of `done ++ rest`. -/
theorem runInserts_spec :
    ∀ (rest done : List Api.Message) (s : Redis.RedisState),
      (((done ++ rest).map (·.id)).Nodup) →
      (((done ++ rest).map Redis.messageScore).Pairwise (· < ·)) →
      s.msgZ = (done.drop (done.length - Redis.maxSize)).map
        (fun x => ⟨Redis.msgKey x.id, Redis.messageScore x⟩) →
      (∀ x ∈ done.drop (done.length - Redis.maxSize),
        s.msgH.lookup (Redis.msgKey x.id) = some (Redis.msgHashOf x)) →
      s.reactZ = [] →
      ((rest.foldl Redis.insertOk s).msgZ =
        ((done ++ rest).drop ((done ++ rest).length - Redis.maxSize)).map
          (fun x => ⟨Redis.msgKey x.id, Redis.messageScore x⟩)) ∧
      (∀ x ∈ (done ++ rest).drop ((done ++ rest).length - Redis.maxSize),
        (rest.foldl Redis.insertOk s).msgH.lookup (Redis.msgKey x.id) =
          some (Redis.msgHashOf x)) ∧
      (rest.foldl Redis.insertOk s).reactZ = [] := by
  intro rest
  induction rest with
  | nil =>
    intro done s hid hsc hz hh hr
    simp only [List.append_nil, List.foldl_nil]
    exact ⟨hz, hh, hr⟩
  | cons m rest ih =>
    intro done s hid hsc hz hh hr
    have hassoc : done ++ m :: rest = (done ++ [m]) ++ rest := by simp
    have hstepid : ((done ++ [m]).map (·.id)).Nodup := by
      refine hid.sublist (List.Sublist.map _ ?_)
      rw [hassoc]
      exact List.sublist_append_left _ _
    have hscm : ∀ x ∈ done, Redis.messageScore x < Redis.messageScore m := by
      rw [List.map_append, List.pairwise_append] at hsc
      intro x hx
      exact hsc.2.2 _ (List.mem_map_of_mem _ hx) _ (by simp)
    have hstep := insertOk_step done m s hstepid hscm hz hh hr
    rw [hassoc, List.foldl_cons]
    exact ih (done ++ [m]) (Redis.insertOk s m)
      (by rw [← hassoc]; exact hid)
      (by rw [← hassoc]; exact hsc)
      hstep.1 hstep.2.1 hstep.2.2

/-- `Redis.ListReactions` on a state with no reaction sub-indexes. -/
theorem listReactions_of_empty (nowNano : Int) (s : Redis.RedisState)
    (hr : s.reactZ = []) (i : String) : Redis.listReactions nowNano s i = [] := by
  unfold Redis.listReactions
  rw [hr]
  rfl

/-- Claim C1 (amended): for every sequence of more than `maxSize` message
inserts with distinct store-assigned identifiers, int64 nanosecond
timestamps no later than the listing time, and strictly increasing stored
scores (`float64` of the timestamp — strictly increasing timestamps only
guarantee this below `2^53` ns), a subsequent `RecencyCache.List` returns
exactly `maxSize` messages, and they are exactly the `maxSize`
most-recently-inserted ones, newest-first. -/
theorem claim_C1_amended_list_returns_newest_first :
    ∀ (msgs : List Api.Message) (nowNano : Int),
      Redis.maxSize < msgs.length →
      (msgs.map (·.id)).Nodup →
      ((msgs.map Redis.messageScore).Pairwise (· < ·)) →
      (∀ m ∈ msgs, m.createdAt.natAbs < 2 ^ 64 ∧ m.createdAt ≤ nowNano) →
      nowNano.natAbs < 2 ^ 64 →
      ((Redis.listMessages nowNano
          (msgs.foldl Redis.insertOk Redis.RedisState.empty)).map (·.id) =
        ((msgs.drop (msgs.length - Redis.maxSize)).map (·.id)).reverse ∧
      (Redis.listMessages nowNano
          (msgs.foldl Redis.insertOk Redis.RedisState.empty)).length =
        Redis.maxSize) := by
  intro msgs nowNano hlen hid hsc htime hnow
  have hrun := runInserts_spec msgs [] Redis.RedisState.empty (by simpa using hid)
    (by simpa using hsc) (by simp [Redis.RedisState.empty]) (by simp) rfl
  simp only [List.nil_append] at hrun
  obtain ⟨hz, hh, hr⟩ := hrun
  have htailsub : msgs.drop (msgs.length - Redis.maxSize) ⊆ msgs :=
    List.drop_subset _ _
  have htaillen : (msgs.drop (msgs.length - Redis.maxSize)).length =
      Redis.maxSize := by
    have hms : Redis.maxSize = 10 := rfl
    rw [hms] at hlen ⊢
    rw [List.length_drop]
    omega
  have hfilter : (msgs.foldl Redis.insertOk Redis.RedisState.empty).msgZ.filter
      (fun e => decide (e.score ≤ fl64round nowNano)) =
      (msgs.foldl Redis.insertOk Redis.RedisState.empty).msgZ := by
    apply List.filter_eq_self.mpr
    intro e he
    rw [hz] at he
    rcases List.mem_map.mp he with ⟨x, hx, rfl⟩
    have hb := htime x (htailsub hx)
    have hle : Redis.messageScore x ≤ fl64round nowNano :=
      fl64round_mono hb.2 hb.1 hnow
    simpa using hle
  have hlist : Redis.listMessages nowNano
      (msgs.foldl Redis.insertOk Redis.RedisState.empty) =
      ((msgs.drop (msgs.length - Redis.maxSize)).reverse).map
        (fun x => Redis.apiMessageOfHash (Redis.msgHashOf x) []) := by
    unfold Redis.listMessages
    rw [hfilter, hz, ← List.map_reverse, List.map_map]
    apply List.map_congr_left
    intro x hx
    have hxm : x ∈ msgs.drop (msgs.length - Redis.maxSize) :=
      List.mem_reverse.mp hx
    have hlook := hh x hxm
    simp only [Function.comp_apply]
    rw [hlook]
    simp only [Option.getD_some]
    rw [listReactions_of_empty _ _ hr]
  refine ⟨?_, ?_⟩
  · rw [hlist, List.map_map]
    have hcomp : ((fun mm : Api.Message => mm.id) ∘
        fun x => Redis.apiMessageOfHash (Redis.msgHashOf x) []) =
        fun x : Api.Message => x.id := rfl
    rw [hcomp, ← List.map_reverse]
  · rw [hlist, List.length_map, List.length_reverse, htaillen]

/-- Witness for the amended claim C1 on the eleven sample messages. -/
theorem claim_C1_amended_witness :
    (Redis.maxSize < sampleMsgs11.length ∧
      (sampleMsgs11.map (·.id)).Nodup ∧
      ((sampleMsgs11.map Redis.messageScore).Pairwise (· < ·)) ∧
      (∀ m ∈ sampleMsgs11, m.createdAt.natAbs < 2 ^ 64 ∧ m.createdAt ≤ 100) ∧
      (100 : Int).natAbs < 2 ^ 64) ∧
    (Redis.listMessages 100
        (sampleMsgs11.foldl Redis.insertOk Redis.RedisState.empty)).map (·.id) =
      ((sampleMsgs11.drop (sampleMsgs11.length - Redis.maxSize)).map
        (·.id)).reverse ∧
    (Redis.listMessages 100
        (sampleMsgs11.foldl Redis.insertOk Redis.RedisState.empty)).length =
      Redis.maxSize :=
  ⟨⟨by decide, by decide, by decide, by decide, by decide⟩,
    (claim_C1_amended_list_returns_newest_first sampleMsgs11 100 (by decide)
      (by decide) (by decide) (by decide) (by decide)).1,
    (claim_C1_amended_list_returns_newest_first sampleMsgs11 100 (by decide)
      (by decide) (by decide) (by decide) (by decide)).2⟩
